import Mathlib

/-!
Shallow embedding of the checkpointed identifier-rename pipeline of the
humanify repository.

Embedded source files:
* `src/checkpoint.ts` — `CheckpointManager.mergePartialResults`,
  `savePartialResults`, `clearCheckpoint`, and the success path of
  `unminifyWithCheckpoint` (modelled on an abstract store).
* `src/plugins/local-llm-rename/visit-all-identifiers-with-checkpoint.ts` —
  the main visitation loop (`visitAllIdentifiersWithCheckpoint`), the
  collision-resolution while loop, `findScopes`, `scopeToString`,
  `hasVisited`/`markVisited`.

Modelling conventions:
* JS `Map` objects become insertion-ordered association lists whose `set`
  overwrites in place (`setAssoc`); JS `Set` objects become lists where
  `add` appends when absent (`addSet`).  Only membership and lookup matter.
* The babel scope is abstracted per binding: `Binding.scopeBound` is the
  list of names for which `scope.hasBinding` answers true when the binding
  is visited, and `Binding.applyFails` records whether `scope.rename`
  would throw at that binding.  `toIdentifier` (babel's sanitizer, not in
  this repository) is an abstract function parameter `sanitize`.
* All externally visible effects of a run (oracle invocations, shard
  writes, checkpoint writes) are recorded in an event trace, in program
  order.  `Date.now()` timestamps are not modelled and are recorded as 0.
* JS strings are modelled as `List Char` where slicing arithmetic matters
  (`scopeToString`), and as `String` elsewhere.  JS number division by 2
  is exact, so the comparisons and truncations of `scopeToString` are
  modelled by doubling every quantity (`2 * e < W` for `e < W / 2`) and by
  `halfTrunc`, which is truncation toward zero as performed by
  `String.prototype.slice` on its arguments.
-/

namespace Humanify

/-- JS `Set.add`: append the element when it is not already present. -/
def addSet (l : List String) (x : String) : List String :=
  if x ∈ l then l else l ++ [x]

/-- JS `Map.set`: overwrite the value at the first occurrence of the key,
append a fresh pair otherwise. -/
def setAssoc : List (String × String) → String → String → List (String × String)
  | [], k, v => [(k, v)]
  | (k', v') :: rest, k, v =>
      if k' = k then (k, v) :: rest else (k', v') :: setAssoc rest k v

/-- JS `Map.get`: the value at the first occurrence of the key. -/
def lookupAssoc : List (String × String) → String → Option String
  | [], _ => none
  | (k', v') :: rest, k => if k' = k then some v' else lookupAssoc rest k

/-- The string `s` prefixed by `n` underscores. -/
def under : Nat → String → String
  | 0, s => s
  | n + 1, s => "_" ++ under n s

/-- Largest length of a string in the list (0 for the empty list). -/
def maxLen (l : List String) : Nat :=
  l.foldr (fun s m => max s.length m) 0

/-- The collision-resolution while loop of
`visitAllIdentifiersWithCheckpoint` (source lines 90-95):
`while (renames.has(safeRenamed) || scope.hasBinding(safeRenamed)) safeRenamed = `_${safeRenamed}`;`
where `taken` lists the names on which the condition answers true. -/
def resolveCollision (taken : List String) (s : String) : String :=
  if s ∈ taken then resolveCollision taken ("_" ++ s) else s
termination_by maxLen taken + 1 - s.length
decreasing_by
  rename_i hmem
  have hb : ∀ l : List String, s ∈ l → s.length ≤ maxLen l := fun l => by
    induction l with
    | nil => intro hl; cases hl
    | cons a t ih =>
        intro hl
        rcases List.mem_cons.mp hl with h | h
        · subst h; exact le_max_left _ _
        · exact le_trans (ih h) (le_max_right _ _)
  have h1 : s.length ≤ maxLen taken := hb taken hmem
  have h2 : ("_" ++ s).length = 1 + s.length := by
    rw [String.length_append]
    rfl
  omega

/-- The persisted `CheckpointData` record of `src/checkpoint.ts`. -/
structure CheckpointData where
  processedIdentifiers : List String
  renames : List (String × String)
  currentFileIndex : Nat
  currentIdentifierIndex : Nat
  timestamp : Nat
deriving Repr, DecidableEq

/-- Externally visible effects of a visitation run, in program order. -/
inductive Event where
  | oracleCall (name : String)
  | shardSave (originalName newName : String)
  | checkpointSave (cp : CheckpointData)
deriving Repr, DecidableEq

/-- One binding discovered by `findScopes`, with its abstracted scope
environment: `scopeBound` lists the names for which `scope.hasBinding`
answers true (consulted both by the re-apply guard of source line 60 and
by the collision loop of line 92), and `applyFails` records whether
`scope.rename` would throw at this binding. -/
structure Binding where
  name : String
  context : String
  scopeBound : List String
  applyFails : Bool
deriving Repr, DecidableEq

/-- Mutable state of the visitation loop: the `renames` set, the
`renamesMap` map, the `visited` set, the `processedIdentifiers` set, the
`processedCount` counter, and the trace of effects so far. -/
structure VisitState where
  renames : List String
  renamesMap : List (String × String)
  visited : List String
  processed : List String
  processedCount : Nat
  events : List Event
deriving Repr, DecidableEq

/-- The checkpoint record saved by the visitation loop: both the periodic
save (source lines 119-125) and the error-path save (lines 132-138) write
`currentFileIndex: 0` and `timestamp: Date.now()` (modelled as 0). -/
def mkCP (processed : List String) (rmap : List (String × String)) (idx : Nat) :
    CheckpointData :=
  ⟨processed, rmap, 0, idx, 0⟩

/-- Source lines 110-126: `markVisited`, `processedIdentifiers.add`,
`processedCount++`, progress callback, and the periodic checkpoint save,
whose condition is the literal `processedCount % 5 === 0` (line 117).
Both additions read `smallestScopeNode.name`, which at this point is the
post-rename name when a rename was applied (the `scope.rename` of line 98
mutates the identifier node in place) and the original name for a no-op;
the caller passes that current node name. -/
def finish (st : VisitState) (name : String) : VisitState :=
  let st1 : VisitState :=
    { st with
      visited := addSet st.visited name
      processed := addSet st.processed name
      processedCount := st.processedCount + 1 }
  if st1.processedCount % 5 = 0 then
    { st1 with
      events := st1.events ++
        [.checkpointSave (mkCP st1.processed st1.renamesMap st1.processedCount)] }
  else st1

/-- One iteration of the visitation loop (source lines 71-127), together
with the surrounding catch block (lines 128-141): skip already-visited
names; call the oracle; on a differing proposal resolve collisions, record
the rename under the original name (line 97), apply it, and save a shard;
on any throw save a checkpoint of the current state and propagate the
error.  `scope.rename` (line 98) mutates the identifier node in place, so
the code after it reads `smallestScopeNode.name` as the new name: the
shard of lines 102-106 is written with `originalName` and `newName` both
equal to the resolved new name, and `markVisited` and
`processedIdentifiers.add` (lines 110-111) receive the new name. -/
def step (sanitize : String → String) (visitor : String → String → Except String String)
    (st : VisitState) (b : Binding) : Except (String × VisitState) VisitState :=
  if b.name ∈ st.visited then .ok st
  else
    match visitor b.name b.context with
    | .error e =>
        .error (e,
          { st with
            events := st.events ++
              [.oracleCall b.name,
               .checkpointSave (mkCP st.processed st.renamesMap st.processedCount)] })
    | .ok proposal =>
        if proposal = b.name then
          .ok (finish { st with events := st.events ++ [.oracleCall b.name] } b.name)
        else
          let safe := resolveCollision (st.renames ++ b.scopeBound) (sanitize proposal)
          let st1 : VisitState :=
            { st with
              renames := addSet st.renames safe
              renamesMap := setAssoc st.renamesMap b.name safe }
          if b.applyFails then
            .error ("rename failed",
              { st1 with
                events := st1.events ++
                  [.oracleCall b.name,
                   .checkpointSave (mkCP st1.processed st1.renamesMap st1.processedCount)] })
          else
            .ok (finish
              { st1 with
                events := st1.events ++
                  [.oracleCall b.name, .shardSave safe safe] } safe)

/-- The visitation loop over the remaining bindings. -/
def runLoop (sanitize : String → String)
    (visitor : String → String → Except String String) :
    VisitState → List Binding → Except (String × VisitState) VisitState
  | st, [] => .ok st
  | st, b :: rest =>
      match step sanitize visitor st b with
      | .error e => .error e
      | .ok st1 => runLoop sanitize visitor st1 rest

/-- Initial loop state (source lines 30-47 and 66): `renames` is the set
of the checkpoint map's values, `visited` and `processedIdentifiers` start
as the checkpoint's processed set, and `processedCount` starts at the
checkpoint's identifier index. -/
def initState : Option CheckpointData → VisitState
  | none => ⟨[], [], [], [], 0, []⟩
  | some c =>
      ⟨c.renames.map Prod.snd, c.renames, c.processedIdentifiers,
       c.processedIdentifiers, c.currentIdentifierIndex, []⟩

/-- One iteration of the checkpoint re-apply pass (source lines 58-63):
`scopes.find(s => s.node.name === originalName)` locates the first
binding currently named `orig`; if its scope has a binding for that name,
`scope.rename` renames the node in place to `new`; in either case no
later binding is inspected. -/
def reApplyOne : List Binding → String → String → List Binding
  | [], _, _ => []
  | b :: rest, orig, new =>
      if b.name = orig then
        if orig ∈ b.scopeBound then { b with name := new } :: rest else b :: rest
      else b :: reApplyOne rest orig new

/-- The checkpoint re-apply pass (source lines 57-64): every entry of the
checkpoint's rename map, in map order, is re-applied to the freshly
parsed binding list. -/
def reApplyRenames (bs : List Binding) (renames : List (String × String)) :
    List Binding :=
  renames.foldl (fun l kv => reApplyOne l kv.1 kv.2) bs

/-- `visitAllIdentifiersWithCheckpoint`: load the checkpoint; if one is
present, first re-apply its recorded renames to the freshly parsed
binding list (source lines 57-64), then start the loop at the saved
identifier index.  The `saveInterval` option
(`VisitOptions.saveInterval`, source line 17, default 10) is accepted but,
as in the source, never consulted: the periodic save in `finish` tests
`processedCount % 5 === 0`. -/
def visitAllIdentifiersWithCheckpoint (sanitize : String → String)
    (visitor : String → String → Except String String) (saveInterval : Nat)
    (cp : Option CheckpointData) (bindings : List Binding) :
    Except (String × VisitState) VisitState :=
  match cp with
  | none => runLoop sanitize visitor (initState none) bindings
  | some c =>
      runLoop sanitize visitor (initState (some c))
        ((reApplyRenames bindings c.renames).drop c.currentIdentifierIndex)

/-- The trace of a finished run, successful or halted by an error. -/
def eventsOf : Except (String × VisitState) VisitState → List Event
  | .ok st => st.events
  | .error (_, st) => st.events

/-- The final state of a finished run, successful or halted by an error. -/
def stateOf : Except (String × VisitState) VisitState → VisitState
  | .ok st => st
  | .error (_, st) => st

/-- One persisted partial-result shard, mirroring the JSON shapes found in
the repository: `savePartialResults` in the visitation loop writes
`{originalName, newName, timestamp}` (source lines 102-106), while the
`CheckpointManager` tests write `{renames: [[k, v], ...], ...}`.  An
absent field is `none` (JSON `undefined`). -/
structure PartialShard where
  renames : Option (List (String × String))
  originalName : Option String
  newName : Option String
  timestamp : Nat
deriving Repr, DecidableEq

/-- `CheckpointManager.mergePartialResults` (src/checkpoint.ts lines
136-149): fold shards in enumeration order; for each shard, only when its
`renames` field is present (`if (result.renames)`), fold the listed pairs
into the map, later entries overwriting earlier ones. -/
def mergePartialResults (shards : List PartialShard) : List (String × String) :=
  shards.foldl
    (fun acc s =>
      match s.renames with
      | some l => l.foldl (fun m kv => setAssoc m kv.1 kv.2) acc
      | none => acc)
    []

/-- A shard of the shape written by the visitation loop immediately after
an accepted rename (source lines 101-107): `{originalName, newName,
timestamp}` and no `renames` field.  Because `scope.rename` (line 98) has
already mutated the identifier node, the loop passes the resolved new name
for both fields, so in the shards the code actually writes the two fields
coincide; the constructor is kept general in its field values. -/
def renameShard (originalName newName : String) : PartialShard :=
  ⟨none, some originalName, some newName, 0⟩

/-- The persistent store seen by `unminifyWithCheckpoint`: the single
canonical checkpoint location, the shard area, and the consolidated
mapping artifact (`rename-mappings.json`). -/
structure DriverStore where
  checkpoint : Option CheckpointData
  shards : List PartialShard
  artifact : Option (List (String × String))
deriving Repr, DecidableEq

/-- The success path of `unminifyWithCheckpoint` after the last file
(src/checkpoint.ts driver, lines 405-423): `clearCheckpoint()` removes the
canonical checkpoint, then `mergePartialResults()` is computed over the
(untouched) shard area and written as the artifact only when non-empty. -/
def finalizeRun (st : DriverStore) : DriverStore :=
  let st1 : DriverStore := { st with checkpoint := none }
  let merged := mergePartialResults st1.shards
  if merged = [] then st1 else { st1 with artifact := some merged }

/-- Stable insertion of a keyed element into a list sorted by key
descending: the element passes over strictly larger keys and lands before
the first key less than or equal to its own. -/
def insertBySize {α : Type} (x : α × Nat) : List (α × Nat) → List (α × Nat)
  | [] => [x]
  | y :: ys => if y.2 > x.2 then y :: insertBySize x ys else x :: y :: ys

/-- Stable sort by key descending.  `findScopes` (source lines 173-187)
collects `(path, scopeSize)` pairs in traversal order and sorts them with
`scopes.sort((a, b) => b[1] - a[1])`; ECMAScript `Array.prototype.sort`
is stable, and the unique stable sort realizing that comparator is
insertion sort on the size key. -/
def sortBySizeDesc {α : Type} : List (α × Nat) → List (α × Nat)
  | [] => []
  | x :: xs => insertBySize x (sortBySizeDesc xs)

/-- `findScopes`: the visitation order, as the sorted list of discovered
bindings (the source then projects to the paths). -/
def findScopes {α : Type} (bindings : List (α × Nat)) : List (α × Nat) :=
  sortBySizeDesc bindings

/-- Index conversion of `String.prototype.slice`: a negative index counts
from the end (clamped at 0), a non-negative one is clamped at the length. -/
def jsIdx (len : Nat) (i : Int) : Nat :=
  if i < 0 then ((len : Int) + i).toNat else min i.toNat len

/-- `String.prototype.slice` over a character list. -/
def jsSlice (cs : List Char) (a b : Int) : List Char :=
  (cs.take (jsIdx cs.length b)).drop (jsIdx cs.length a)

/-- Truncation toward zero of `a / 2`, as `slice` applies to fractional
arguments (`ToIntegerOrInfinity`). -/
def halfTrunc (a : Int) : Int :=
  if 0 ≤ a then a / 2 else -((-a) / 2)

/-- `scopeToString` (source lines 201-227) with the surrounding-scope text
`code`, window size `W`, and the binding's span `[s, e)`; `isProgram`
tells whether the surrounding path is the whole program.  All comparisons
against `contextWindowSize / 2` are modelled by doubling. -/
def scopeToString (code : List Char) (W : Nat) (s e : Nat) (isProgram : Bool) :
    List Char :=
  if code.length < W then code
  else if isProgram then
    if 2 * e < W then jsSlice code 0 (W : Int)
    else if (2 * s : Int) > 2 * (code.length : Int) - (W : Int) then
      jsSlice code (-(W : Int)) (code.length : Int)
    else
      jsSlice code (halfTrunc ((2 * s : Int) - (W : Int)))
        (halfTrunc ((2 * e : Int) + (W : Int)))
  else jsSlice code 0 (W : Int)

/-! ### Concrete instances used to evaluate the model -/

/-- An oracle that always proposes the original name (every decision is a
no-op). -/
def idVisitor : String → String → Except String String := fun n _ => .ok n

/-- An oracle that always proposes the name `x`. -/
def xVisitor : String → String → Except String String := fun _ _ => .ok "x"

/-- An oracle that always raises. -/
def failVisitor : String → String → Except String String := fun _ _ => .error "boom"

/-- The loop state of a fresh run with no checkpoint. -/
def stEmpty : VisitState := ⟨[], [], [], [], 0, []⟩

/-- A binding with no colliding scope names whose rename application
succeeds. -/
def bnd (n : String) : Binding := ⟨n, "ctx", [], false⟩

/-- Five such bindings. -/
def bs5 : List Binding := [bnd "a", bnd "b", bnd "c", bnd "d", bnd "e"]

/-- A ten-character program text. -/
def code10 : List Char := "abcdefghij".data

/-! ### Lemmas about the visitation order (`findScopes`) -/

theorem insertBySize_perm {α : Type} (x : α × Nat) (l : List (α × Nat)) :
    (insertBySize x l).Perm (x :: l) := by
  induction l with
  | nil => simp [insertBySize]
  | cons y ys ih =>
      simp only [insertBySize]
      split
      · exact ((ih.cons y).trans (List.Perm.swap x y ys))
      · exact List.Perm.refl _

theorem insertBySize_sorted {α : Type} (x : α × Nat) (l : List (α × Nat))
    (h : List.Sorted (fun a b : α × Nat => b.2 ≤ a.2) l) :
    List.Sorted (fun a b : α × Nat => b.2 ≤ a.2) (insertBySize x l) := by
  induction l with
  | nil => simp [insertBySize]
  | cons y ys ih =>
      rw [List.sorted_cons] at h
      simp only [insertBySize]
      split
      · rw [List.sorted_cons]
        refine ⟨?_, ih h.2⟩
        intro b hb
        have hb2 : b ∈ x :: ys := (insertBySize_perm x ys).mem_iff.mp hb
        rcases List.mem_cons.mp hb2 with h1 | h2
        · subst h1; omega
        · exact h.1 b h2
      · rw [List.sorted_cons]
        constructor
        · intro b hb
          rcases List.mem_cons.mp hb with h1 | h2
          · subst h1; omega
          · have := h.1 b h2; omega
        · exact List.sorted_cons.mpr h

theorem insertBySize_filter {α : Type} (x : α × Nat) (l : List (α × Nat)) (k : Nat) :
    (insertBySize x l).filter (fun p => p.2 = k) =
      ((if x.2 = k then [x] else []) ++ l.filter (fun p => p.2 = k)) := by
  induction l with
  | nil => by_cases h : x.2 = k <;> simp [insertBySize, List.filter, h]
  | cons y ys ih =>
      simp only [insertBySize]
      split
      · rename_i hgt
        by_cases hy : y.2 = k
        · have hx : ¬x.2 = k := by omega
          simp [List.filter_cons, hy, hx, ih]
        · simp [List.filter_cons, hy, ih]
      · by_cases hx : x.2 = k <;> simp [List.filter_cons, hx]

theorem sortBySizeDesc_perm {α : Type} (l : List (α × Nat)) :
    (sortBySizeDesc l).Perm l := by
  induction l with
  | nil => exact List.Perm.refl _
  | cons x xs ih =>
      exact (insertBySize_perm x (sortBySizeDesc xs)).trans (ih.cons x)

theorem sortBySizeDesc_sorted {α : Type} (l : List (α × Nat)) :
    List.Sorted (fun a b : α × Nat => b.2 ≤ a.2) (sortBySizeDesc l) := by
  induction l with
  | nil => simp [sortBySizeDesc]
  | cons x xs ih => exact insertBySize_sorted x _ ih

theorem sortBySizeDesc_filter {α : Type} (l : List (α × Nat)) (k : Nat) :
    (sortBySizeDesc l).filter (fun p => p.2 = k) = l.filter (fun p => p.2 = k) := by
  induction l with
  | nil => rfl
  | cons x xs ih =>
      simp only [sortBySizeDesc]
      rw [insertBySize_filter, ih]
      by_cases hx : x.2 = k <;> simp [List.filter_cons, hx]

/-- C9: the visitation order computed by `findScopes` contains exactly the
discovered bindings, sorted by owning-scope size in descending order, and
for each scope size the bindings of that size appear in first-discovery
order (stability).  As `findScopes` is a pure function of the discovered
binding list, identical source text yields an identical order. -/
theorem findScopes_order_deterministic {α : Type} (bs : List (α × Nat)) :
    (findScopes bs).Perm bs
      ∧ List.Sorted (fun a b : α × Nat => b.2 ≤ a.2) (findScopes bs)
      ∧ ∀ k : Nat, (findScopes bs).filter (fun p => p.2 = k) =
          bs.filter (fun p => p.2 = k) :=
  ⟨sortBySizeDesc_perm bs, sortBySizeDesc_sorted bs, fun k => sortBySizeDesc_filter bs k⟩

/-! ### Lemmas about sets, association lists and underscore prefixes -/

theorem mem_addSet {l : List String} {x y : String} :
    y ∈ addSet l x ↔ y ∈ l ∨ y = x := by
  by_cases h : x ∈ l
  · simp only [addSet, if_pos h]
    constructor
    · exact fun hy => Or.inl hy
    · rintro (hy | rfl) <;> assumption
  · simp [addSet, if_neg h]

theorem mem_addSet_self (l : List String) (x : String) : x ∈ addSet l x :=
  mem_addSet.mpr (Or.inr rfl)

theorem lookupAssoc_setAssoc_self (m : List (String × String)) (k v : String) :
    lookupAssoc (setAssoc m k v) k = some v := by
  induction m with
  | nil => simp [setAssoc, lookupAssoc]
  | cons kv rest ih =>
      by_cases h : kv.1 = k
      · simp [setAssoc, h, lookupAssoc]
      · simp [setAssoc, h, lookupAssoc, ih]

theorem under_shift (n : Nat) (s : String) : under n ("_" ++ s) = under (n + 1) s := by
  induction n with
  | zero => rfl
  | succ n ih =>
      show "_" ++ under n ("_" ++ s) = "_" ++ under (n + 1) s
      rw [ih]

/-- The collision-resolution loop returns its argument prefixed with the
minimal number of underscores avoiding every taken name. -/
theorem resolve_minimal (taken : List String) (s : String) :
    ∃ n, resolveCollision taken s = under n s ∧ under n s ∉ taken ∧
      ∀ m < n, under m s ∈ taken := by
  induction s using resolveCollision.induct taken with
  | case1 s hmem ih =>
      obtain ⟨n, h1, h2, h3⟩ := ih
      refine ⟨n + 1, ?_, ?_, ?_⟩
      · rw [resolveCollision.eq_def, if_pos hmem, h1, under_shift]
      · rw [under_shift] at h2
        exact h2
      · intro m hm
        match m with
        | 0 => exact hmem
        | m + 1 =>
            have := h3 m (by omega)
            rw [under_shift] at this
            exact this
  | case2 s hmem =>
      refine ⟨0, ?_, hmem, ?_⟩
      · rw [resolveCollision.eq_def, if_neg hmem]
        rfl
      · intro m hm
        exact absurd hm (Nat.not_lt_zero m)

/-! ### Branch equations for `step` and `finish` -/

theorem finish_renames (st : VisitState) (n : String) :
    (finish st n).renames = st.renames := by
  simp only [finish]
  split <;> rfl

theorem finish_renamesMap (st : VisitState) (n : String) :
    (finish st n).renamesMap = st.renamesMap := by
  simp only [finish]
  split <;> rfl

theorem finish_processed (st : VisitState) (n : String) :
    (finish st n).processed = addSet st.processed n := by
  simp only [finish]
  split <;> rfl

theorem finish_processedCount (st : VisitState) (n : String) :
    (finish st n).processedCount = st.processedCount + 1 := by
  simp only [finish]
  split <;> rfl

theorem finish_events (st : VisitState) (n : String) :
    (finish st n).events = st.events ∨
      (finish st n).events = st.events ++
        [.checkpointSave (mkCP (addSet st.processed n) st.renamesMap
          (st.processedCount + 1))] := by
  simp only [finish]
  split
  · exact Or.inr rfl
  · exact Or.inl rfl

theorem step_skip_eq (sanitize : String → String)
    (visitor : String → String → Except String String) (st : VisitState)
    (b : Binding) (h : b.name ∈ st.visited) :
    step sanitize visitor st b = .ok st := by
  simp [step, h]

theorem step_oracle_error_eq (sanitize : String → String)
    (visitor : String → String → Except String String) (st : VisitState)
    (b : Binding) (e : String) (hnv : b.name ∉ st.visited)
    (herr : visitor b.name b.context = .error e) :
    step sanitize visitor st b = .error (e,
      { st with
        events := st.events ++
          [.oracleCall b.name,
           .checkpointSave (mkCP st.processed st.renamesMap st.processedCount)] }) := by
  simp [step, hnv, herr]

theorem step_noop_eq (sanitize : String → String)
    (visitor : String → String → Except String String) (st : VisitState)
    (b : Binding) (hnv : b.name ∉ st.visited)
    (hok : visitor b.name b.context = .ok b.name) :
    step sanitize visitor st b =
      .ok (finish { st with events := st.events ++ [.oracleCall b.name] } b.name) := by
  simp [step, hnv, hok]

theorem step_rename_eq (sanitize : String → String)
    (visitor : String → String → Except String String) (st : VisitState)
    (b : Binding) (p : String) (hnv : b.name ∉ st.visited)
    (hok : visitor b.name b.context = .ok p) (hne : p ≠ b.name)
    (hnf : b.applyFails = false) :
    step sanitize visitor st b =
      .ok (finish
        { st with
          renames := addSet st.renames
            (resolveCollision (st.renames ++ b.scopeBound) (sanitize p))
          renamesMap := setAssoc st.renamesMap b.name
            (resolveCollision (st.renames ++ b.scopeBound) (sanitize p))
          events := st.events ++
            [.oracleCall b.name,
             .shardSave (resolveCollision (st.renames ++ b.scopeBound) (sanitize p))
               (resolveCollision (st.renames ++ b.scopeBound) (sanitize p))] }
        (resolveCollision (st.renames ++ b.scopeBound) (sanitize p))) := by
  simp [step, hnv, hok, hne, hnf]

theorem step_applyfail_eq (sanitize : String → String)
    (visitor : String → String → Except String String) (st : VisitState)
    (b : Binding) (p : String) (hnv : b.name ∉ st.visited)
    (hok : visitor b.name b.context = .ok p) (hne : p ≠ b.name)
    (hf : b.applyFails = true) :
    step sanitize visitor st b = .error ("rename failed",
      { st with
        renames := addSet st.renames
          (resolveCollision (st.renames ++ b.scopeBound) (sanitize p))
        renamesMap := setAssoc st.renamesMap b.name
          (resolveCollision (st.renames ++ b.scopeBound) (sanitize p))
        events := st.events ++
          [.oracleCall b.name,
           .checkpointSave (mkCP st.processed
             (setAssoc st.renamesMap b.name
               (resolveCollision (st.renames ++ b.scopeBound) (sanitize p)))
             st.processedCount)] }) := by
  simp [step, hnv, hok, hne, hf]

/-! ### Claim C3: collision-safe rename targets -/

/-- C3: when the oracle proposes a name differing from the original, the
stored rename target is the sanitized proposal prefixed with the minimal
number of underscores making it distinct both from the accepted rename
targets of this file (the `renames` set) and from the names bound in the
binding's scope. -/
theorem stored_name_has_minimal_underscores (sanitize : String → String)
    (visitor : String → String → Except String String) (st : VisitState)
    (b : Binding) (p : String) (hnv : b.name ∉ st.visited)
    (hok : visitor b.name b.context = .ok p) (hne : p ≠ b.name)
    (hnf : b.applyFails = false) :
    ∃ st1 n, step sanitize visitor st b = .ok st1
      ∧ lookupAssoc st1.renamesMap b.name = some (under n (sanitize p))
      ∧ under n (sanitize p) ∉ st.renames ++ b.scopeBound
      ∧ ∀ m < n, under m (sanitize p) ∈ st.renames ++ b.scopeBound := by
  obtain ⟨n, h1, h2, h3⟩ := resolve_minimal (st.renames ++ b.scopeBound) (sanitize p)
  refine ⟨_, n, step_rename_eq sanitize visitor st b p hnv hok hne hnf, ?_, h2, h3⟩
  rw [finish_renamesMap]
  show lookupAssoc (setAssoc st.renamesMap b.name
    (resolveCollision (st.renames ++ b.scopeBound) (sanitize p))) b.name = _
  rw [lookupAssoc_setAssoc_self, h1]

/-- Witness for C3: a binding named `a` whose scope already binds `x`
receives the proposal `x`; the stored name is `_x`, one underscore being
the minimal distinct prefix. -/
theorem stored_name_has_minimal_underscores_witness :
    ∃ st1 n, step id xVisitor stEmpty ⟨"a", "ctx", ["x"], false⟩ = .ok st1
      ∧ lookupAssoc st1.renamesMap "a" = some (under n (id "x"))
      ∧ under n (id "x") ∉ stEmpty.renames ++ ["x"]
      ∧ ∀ m < n, under m (id "x") ∈ stEmpty.renames ++ ["x"] :=
  stored_name_has_minimal_underscores id xVisitor stEmpty
    ⟨"a", "ctx", ["x"], false⟩ "x" (by decide) rfl (by decide) rfl

/-! ### Claim C1: merging shards -/

/-- C1: evaluation of `mergePartialResults` at the shard shape written by
the visitation loop after an accepted rename.  The merge inspects only a
shard's `renames` field, which rename shards do not carry, so the shard's
`(originalName, newName)` pair never reaches the consolidated mapping:
the merge of the single shard `{originalName: "a", newName: "array"}` is
empty instead of `{a: array}`. -/
theorem merge_drops_rename_shards :
    mergePartialResults [renameShard "a" "array"] = []
      ∧ lookupAssoc (mergePartialResults [renameShard "a" "array"]) "a" = none := by
  decide

/-! ### Claim C5: the periodic checkpoint interval -/

/-- C5: evaluation of the visitation loop at the failing input: with the
caller-supplied `saveInterval` of 10 (the local-model configuration), a
full checkpoint record is nevertheless persisted after the 5th processed
binding, because the loop's save condition is the hard-coded
`processedCount % 5 === 0` and never consults `saveInterval`. -/
theorem checkpoint_saved_after_five_despite_interval_ten :
    Event.checkpointSave (mkCP ["a", "b", "c", "d", "e"] [] 5) ∈
      eventsOf (visitAllIdentifiersWithCheckpoint id idVisitor 10 none bs5) := by
  decide

/-! ### Claim C8: effects of successful completion -/

/-- C8 counterexample: a successful completion starting from a store
holding one rename shard leaves the shard area non-empty — shard records
are not removed, contradicting the claim that they are. -/
theorem shards_survive_successful_completion :
    ¬ (finalizeRun ⟨some (mkCP ["a"] [("a", "alpha")] 1),
        [renameShard "a" "alpha"], none⟩).shards = [] := by
  decide

/-- C8 (amended): on successful completion the checkpoint record is
removed and the consolidated mapping is written as the artifact when it is
non-empty (otherwise the artifact is untouched), while the shard records
all remain in the store. -/
theorem finalize_clears_checkpoint_keeps_shards (st : DriverStore) :
    (finalizeRun st).checkpoint = none
      ∧ (finalizeRun st).shards = st.shards
      ∧ (finalizeRun st).artifact =
          (if mergePartialResults st.shards = [] then st.artifact
           else some (mergePartialResults st.shards)) := by
  unfold finalizeRun
  by_cases h : mergePartialResults st.shards = [] <;> simp [h]

/-! ### Claim C7: immediate shard persistence -/

/-- C7 counterexample: a run over one binding whose oracle proposal equals
the original name (a no-op decision) persists no shard at all — the trace
holds only the oracle call. -/
theorem no_shard_for_noop_decision :
    Event.shardSave "a" "a" ∉
        eventsOf (visitAllIdentifiersWithCheckpoint id idVisitor 5 none [bnd "a"])
      ∧ eventsOf (visitAllIdentifiersWithCheckpoint id idVisitor 5 none [bnd "a"]) =
          [Event.oracleCall "a"] := by
  decide

/-- C7 (amended): a `PartialResultShard` is persisted immediately — within
the same iteration, right after the oracle call and before any later
event — for every accepted rename, but a binding whose proposal equals its
original name (a no-op decision) persists no shard.  Moreover the shard
does not record the decision's original name: because `scope.rename` has
already mutated the identifier node in place, both its `originalName` and
`newName` fields hold the resolved new name. -/
theorem shard_persisted_exactly_for_renames (sanitize : String → String)
    (visitor : String → String → Except String String) (st : VisitState)
    (b : Binding) (p : String) (hnv : b.name ∉ st.visited)
    (hok : visitor b.name b.context = .ok p) (hnf : b.applyFails = false) :
    (p ≠ b.name → ∃ rest, (stateOf (step sanitize visitor st b)).events =
        st.events ++
          [.oracleCall b.name,
           .shardSave (resolveCollision (st.renames ++ b.scopeBound) (sanitize p))
             (resolveCollision (st.renames ++ b.scopeBound) (sanitize p))] ++ rest)
      ∧ (p = b.name → ∀ o nn, Event.shardSave o nn ∈
          (stateOf (step sanitize visitor st b)).events →
            Event.shardSave o nn ∈ st.events) := by
  constructor
  · intro hne
    rw [step_rename_eq sanitize visitor st b p hnv hok hne hnf]
    rcases finish_events
        { st with
          renames := addSet st.renames
            (resolveCollision (st.renames ++ b.scopeBound) (sanitize p))
          renamesMap := setAssoc st.renamesMap b.name
            (resolveCollision (st.renames ++ b.scopeBound) (sanitize p))
          events := st.events ++
            [.oracleCall b.name,
             .shardSave (resolveCollision (st.renames ++ b.scopeBound) (sanitize p))
               (resolveCollision (st.renames ++ b.scopeBound) (sanitize p))] }
        (resolveCollision (st.renames ++ b.scopeBound) (sanitize p)) with h | h
    · exact ⟨[], by rw [stateOf, h]; simp⟩
    · refine ⟨_, by rw [stateOf, h]⟩
  · intro hp o nn hmem
    subst hp
    rw [step_noop_eq sanitize visitor st b hnv hok] at hmem
    rcases finish_events { st with events := st.events ++ [.oracleCall b.name] }
        b.name with h | h <;>
      · rw [stateOf, h] at hmem
        simp at hmem
        exact hmem

/-- Witness for C7: an accepted rename of the binding `a` to `x` writes a
shard immediately after the oracle call, both of whose fields hold the
resolved name; a no-op leaves the trace shard-free. -/
theorem shard_persisted_exactly_for_renames_witness :
    ("x" ≠ "a" → ∃ rest, (stateOf (step id xVisitor stEmpty (bnd "a"))).events =
        stEmpty.events ++
          [.oracleCall "a",
           .shardSave (resolveCollision (stEmpty.renames ++ (bnd "a").scopeBound) (id "x"))
             (resolveCollision (stEmpty.renames ++ (bnd "a").scopeBound) (id "x"))] ++ rest)
      ∧ ("x" = "a" → ∀ o nn, Event.shardSave o nn ∈
          (stateOf (step id xVisitor stEmpty (bnd "a"))).events →
            Event.shardSave o nn ∈ stEmpty.events) :=
  shard_persisted_exactly_for_renames id xVisitor stEmpty (bnd "a") "x"
    (by decide) rfl rfl

/-! ### Claim C6: the checkpoint saved when an error halts the run -/

/-- C6 counterexample: when the rename application itself throws (the
source records the pair in `renamesMap` on line 97 before calling
`scope.rename` on line 98), the checkpoint saved on the way out already
contains the failing binding's pair `(a, x)`, although zero bindings were
processed before the failing one and the prior rename map was empty. -/
theorem error_checkpoint_contains_failing_pair :
    step id xVisitor stEmpty ⟨"a", "ctx", [], true⟩ =
      .error ("rename failed",
        ⟨["x"], [("a", "x")], [], [], 0,
         [Event.oracleCall "a", Event.checkpointSave ⟨[], [("a", "x")], 0, 0, 0⟩]⟩)
      ∧ ([("a", "x")] : List (String × String)) ≠ [] := by
  constructor
  · simp [step, xVisitor, stEmpty, resolveCollision, addSet, setAssoc, mkCP]
  · decide

/-- C6 (amended): when an error halts the visitation loop, the loop has
run some prefix of the bindings successfully, the saved checkpoint's
processed set and identifier index reflect exactly that prefix, and the
error is propagated unchanged.  The checkpoint's rename map also reflects
exactly the prefix when the oracle call raised; when the rename
application raised, the map additionally contains the failing binding's
pair. -/
theorem error_halts_with_progress_checkpoint (sanitize : String → String)
    (visitor : String → String → Except String String) (st : VisitState)
    (bs : List Binding) (e : String) (st' : VisitState)
    (h : runLoop sanitize visitor st bs = .error (e, st')) :
    ∃ pre b post st0, bs = pre ++ b :: post
      ∧ runLoop sanitize visitor st pre = .ok st0
      ∧ st'.processed = st0.processed
      ∧ st'.processedCount = st0.processedCount
      ∧ ((visitor b.name b.context = .error e
            ∧ st'.renamesMap = st0.renamesMap
            ∧ st'.events = st0.events ++
                [.oracleCall b.name,
                 .checkpointSave (mkCP st0.processed st0.renamesMap st0.processedCount)])
        ∨ (b.applyFails = true ∧ e = "rename failed"
            ∧ ∃ p, visitor b.name b.context = .ok p ∧ p ≠ b.name
              ∧ st'.renamesMap = setAssoc st0.renamesMap b.name
                  (resolveCollision (st0.renames ++ b.scopeBound) (sanitize p))
              ∧ st'.events = st0.events ++
                  [.oracleCall b.name,
                   .checkpointSave (mkCP st0.processed st'.renamesMap
                     st0.processedCount)])) := by
  induction bs generalizing st with
  | nil => simp [runLoop] at h
  | cons b rest ih =>
      cases hstep : step sanitize visitor st b with
      | ok st1 =>
          have h2 : runLoop sanitize visitor st1 rest = .error (e, st') := by
            simpa [runLoop, hstep] using h
          obtain ⟨pre, b', post, st0, hsplit, hpre, hrest⟩ := ih st1 h2
          refine ⟨b :: pre, b', post, st0, by rw [hsplit]; rfl, ?_, hrest⟩
          simp [runLoop, hstep, hpre]
      | error pr =>
          have hpr : pr = (e, st') := by simpa [runLoop, hstep] using h
          subst hpr
          by_cases hv : b.name ∈ st.visited
          · rw [step_skip_eq sanitize visitor st b hv] at hstep
            cases hstep
          · cases hvis : visitor b.name b.context with
            | error e0 =>
                rw [step_oracle_error_eq sanitize visitor st b e0 hv hvis] at hstep
                have hpair := (Prod.mk.injEq _ _ _ _).mp (Except.error.inj hstep)
                have hfst : e0 = e := hpair.1
                have hsnd := hpair.2
                subst hfst
                refine ⟨[], b, rest, st, rfl, rfl, ?_, ?_, Or.inl ⟨hvis, ?_, ?_⟩⟩ <;>
                  rw [← hsnd]
            | ok p =>
                by_cases hp : p = b.name
                · subst hp
                  rw [step_noop_eq sanitize visitor st b hv hvis] at hstep
                  cases hstep
                · cases hfail : b.applyFails with
                  | false =>
                      rw [step_rename_eq sanitize visitor st b p hv hvis hp hfail]
                        at hstep
                      cases hstep
                  | true =>
                      rw [step_applyfail_eq sanitize visitor st b p hv hvis hp hfail]
                        at hstep
                      have hpair := (Prod.mk.injEq _ _ _ _).mp (Except.error.inj hstep)
                      have hfst : "rename failed" = e := hpair.1
                      have hsnd := hpair.2
                      refine ⟨[], b, rest, st, rfl, rfl, ?_, ?_,
                        Or.inr ⟨hfail, hfst.symm, p, hvis, hp, ?_, ?_⟩⟩ <;>
                        rw [← hsnd]

/-- Witness for C6: a run whose only binding's oracle call raises halts
with the raised error and a checkpoint reflecting zero processed
bindings. -/
theorem error_halts_with_progress_checkpoint_witness :
    ∃ pre b post st0, [bnd "a"] = pre ++ b :: post
      ∧ runLoop id failVisitor stEmpty pre = .ok st0
      ∧ (⟨[], [], [], [], 0,
          [Event.oracleCall "a", Event.checkpointSave ⟨[], [], 0, 0, 0⟩]⟩ :
            VisitState).processed = st0.processed
      ∧ (⟨[], [], [], [], 0,
          [Event.oracleCall "a", Event.checkpointSave ⟨[], [], 0, 0, 0⟩]⟩ :
            VisitState).processedCount = st0.processedCount
      ∧ ((failVisitor b.name b.context = .error "boom"
            ∧ (⟨[], [], [], [], 0,
                [Event.oracleCall "a", Event.checkpointSave ⟨[], [], 0, 0, 0⟩]⟩ :
                  VisitState).renamesMap = st0.renamesMap
            ∧ (⟨[], [], [], [], 0,
                [Event.oracleCall "a", Event.checkpointSave ⟨[], [], 0, 0, 0⟩]⟩ :
                  VisitState).events = st0.events ++
                [.oracleCall b.name,
                 .checkpointSave (mkCP st0.processed st0.renamesMap st0.processedCount)])
        ∨ (b.applyFails = true ∧ "boom" = "rename failed"
            ∧ ∃ p, failVisitor b.name b.context = .ok p ∧ p ≠ b.name
              ∧ (⟨[], [], [], [], 0,
                  [Event.oracleCall "a", Event.checkpointSave ⟨[], [], 0, 0, 0⟩]⟩ :
                    VisitState).renamesMap = setAssoc st0.renamesMap b.name
                  (resolveCollision (st0.renames ++ b.scopeBound) (id p))
              ∧ (⟨[], [], [], [], 0,
                  [Event.oracleCall "a", Event.checkpointSave ⟨[], [], 0, 0, 0⟩]⟩ :
                    VisitState).events = st0.events ++
                  [.oracleCall b.name,
                   .checkpointSave (mkCP st0.processed
                     (⟨[], [], [], [], 0,
                       [Event.oracleCall "a",
                        Event.checkpointSave ⟨[], [], 0, 0, 0⟩]⟩ :
                         VisitState).renamesMap st0.processedCount)])) :=
  error_halts_with_progress_checkpoint id failVisitor stEmpty [bnd "a"] "boom"
    ⟨[], [], [], [], 0,
     [Event.oracleCall "a", Event.checkpointSave ⟨[], [], 0, 0, 0⟩]⟩ rfl

/-! ### Event-trace and state invariants of `step` and `runLoop` -/

theorem eventsOf_stateOf (x : Except (String × VisitState) VisitState) :
    eventsOf x = (stateOf x).events := by
  cases x with
  | ok st => rfl
  | error pr => rfl

/-- A step only appends events: every appended checkpoint save records
file index 0, and every appended oracle call names the current binding,
which was unvisited when the step began. -/
theorem step_events_delta (sanitize : String → String)
    (visitor : String → String → Except String String) (st : VisitState)
    (b : Binding) :
    ∃ new, (stateOf (step sanitize visitor st b)).events = st.events ++ new
      ∧ (∀ c, Event.checkpointSave c ∈ new → c.currentFileIndex = 0)
      ∧ (∀ n, Event.oracleCall n ∈ new → n = b.name ∧ b.name ∉ st.visited) := by
  by_cases hv : b.name ∈ st.visited
  · refine ⟨[], ?_, ?_, ?_⟩
    · rw [step_skip_eq sanitize visitor st b hv, stateOf, List.append_nil]
    · intro c hc; cases hc
    · intro n hn; cases hn
  · cases hvis : visitor b.name b.context with
    | error e0 =>
        refine ⟨[.oracleCall b.name,
          .checkpointSave (mkCP st.processed st.renamesMap st.processedCount)],
          ?_, ?_, ?_⟩
        · rw [step_oracle_error_eq sanitize visitor st b e0 hv hvis, stateOf]
        · intro c hc
          simp at hc
          subst hc
          rfl
        · intro n hn
          simp at hn
          exact ⟨hn, hv⟩
    | ok p =>
        by_cases hp : p = b.name
        · subst hp
          rw [step_noop_eq sanitize visitor st b hv hvis]
          rcases finish_events { st with events := st.events ++ [.oracleCall b.name] }
              b.name with h | h
          · refine ⟨[.oracleCall b.name], by rw [stateOf, h], ?_, ?_⟩
            · intro c hc; simp at hc
            · intro n hn
              simp at hn
              exact ⟨hn, hv⟩
          · refine ⟨[.oracleCall b.name,
              .checkpointSave (mkCP (addSet st.processed b.name) st.renamesMap
                (st.processedCount + 1))], ?_, ?_, ?_⟩
            · rw [stateOf, h, List.append_assoc]
              rfl
            · intro c hc
              simp at hc
              subst hc
              rfl
            · intro n hn
              simp at hn
              exact ⟨hn, hv⟩
        · cases hfail : b.applyFails with
          | true =>
              refine ⟨[.oracleCall b.name,
                .checkpointSave (mkCP st.processed
                  (setAssoc st.renamesMap b.name
                    (resolveCollision (st.renames ++ b.scopeBound) (sanitize p)))
                  st.processedCount)], ?_, ?_, ?_⟩
              · rw [step_applyfail_eq sanitize visitor st b p hv hvis hp hfail,
                  stateOf]
              · intro c hc
                simp at hc
                subst hc
                rfl
              · intro n hn
                simp at hn
                exact ⟨hn, hv⟩
          | false =>
              rw [step_rename_eq sanitize visitor st b p hv hvis hp hfail]
              rcases finish_events
                  { st with
                    renames := addSet st.renames
                      (resolveCollision (st.renames ++ b.scopeBound) (sanitize p))
                    renamesMap := setAssoc st.renamesMap b.name
                      (resolveCollision (st.renames ++ b.scopeBound) (sanitize p))
                    events := st.events ++
                      [.oracleCall b.name,
                       .shardSave
                         (resolveCollision (st.renames ++ b.scopeBound) (sanitize p))
                         (resolveCollision (st.renames ++ b.scopeBound) (sanitize p))] }
                  (resolveCollision (st.renames ++ b.scopeBound) (sanitize p)) with h | h
              · refine ⟨[.oracleCall b.name,
                  .shardSave (resolveCollision (st.renames ++ b.scopeBound) (sanitize p))
                    (resolveCollision (st.renames ++ b.scopeBound) (sanitize p))],
                  by rw [stateOf, h], ?_, ?_⟩
                · intro c hc; simp at hc
                · intro n hn
                  simp at hn
                  exact ⟨hn, hv⟩
              · refine ⟨[.oracleCall b.name,
                  .shardSave (resolveCollision (st.renames ++ b.scopeBound) (sanitize p))
                    (resolveCollision (st.renames ++ b.scopeBound) (sanitize p)),
                  .checkpointSave (mkCP
                    (addSet st.processed
                      (resolveCollision (st.renames ++ b.scopeBound) (sanitize p)))
                    (setAssoc st.renamesMap b.name
                      (resolveCollision (st.renames ++ b.scopeBound) (sanitize p)))
                    (st.processedCount + 1))], ?_, ?_, ?_⟩
                · rw [stateOf, h, List.append_assoc]
                  rfl
                · intro c hc
                  simp at hc
                  subst hc
                  rfl
                · intro n hn
                  simp at hn
                  exact ⟨hn, hv⟩

theorem runLoop_checkpoint_file_index_zero (sanitize : String → String)
    (visitor : String → String → Except String String) (bs : List Binding) :
    ∀ st : VisitState,
      (∀ c, Event.checkpointSave c ∈ st.events → c.currentFileIndex = 0) →
      ∀ c, Event.checkpointSave c ∈ eventsOf (runLoop sanitize visitor st bs) →
        c.currentFileIndex = 0 := by
  induction bs with
  | nil => intro st h c hc; exact h c hc
  | cons b rest ih =>
      intro st h c hc
      obtain ⟨new, hev, hcp, _⟩ := step_events_delta sanitize visitor st b
      cases hstep : step sanitize visitor st b with
      | error pr =>
          rw [hstep, stateOf] at hev
          have : eventsOf (runLoop sanitize visitor st (b :: rest)) = pr.2.events := by
            simp [runLoop, hstep, eventsOf]
          rw [this, hev] at hc
          rcases List.mem_append.mp hc with hc | hc
          · exact h c hc
          · exact hcp c hc
      | ok st1 =>
          rw [hstep, stateOf] at hev
          have hrl : runLoop sanitize visitor st (b :: rest) =
              runLoop sanitize visitor st1 rest := by
            simp [runLoop, hstep]
          rw [hrl] at hc
          refine ih st1 ?_ c hc
          intro c0 hc0
          rw [hev] at hc0
          rcases List.mem_append.mp hc0 with hc0 | hc0
          · exact h c0 hc0
          · exact hcp c0 hc0

/-! ### Claim C10: the file index recorded by the orchestrator -/

/-- C10: every checkpoint record saved by the identifier-level visitation
loop — periodic or error-path — records `currentFileIndex = 0`, regardless
of the run's inputs. -/
theorem saved_checkpoints_record_file_index_zero (sanitize : String → String)
    (visitor : String → String → Except String String) (saveInterval : Nat)
    (cp : Option CheckpointData) (bs : List Binding) :
    ∀ c, Event.checkpointSave c ∈
        eventsOf (visitAllIdentifiersWithCheckpoint sanitize visitor saveInterval cp bs) →
      c.currentFileIndex = 0 := by
  intro c hc
  cases cp with
  | none =>
      refine runLoop_checkpoint_file_index_zero sanitize visitor _
        (initState none) ?_ c hc
      intro c0 hc0
      simp [initState] at hc0
  | some c1 =>
      refine runLoop_checkpoint_file_index_zero sanitize visitor _
        (initState (some c1)) ?_ c hc
      intro c0 hc0
      simp [initState] at hc0

/-- Witness for C10: the periodic checkpoint written after five processed
bindings carries file index 0. -/
theorem saved_checkpoints_record_file_index_zero_witness :
    Event.checkpointSave (mkCP ["a", "b", "c", "d", "e"] [] 5) ∈
        eventsOf (visitAllIdentifiersWithCheckpoint id idVisitor 10 none bs5)
      ∧ (mkCP ["a", "b", "c", "d", "e"] [] 5).currentFileIndex = 0 :=
  ⟨by decide,
   saved_checkpoints_record_file_index_zero id idVisitor 10 none bs5 _ (by decide)⟩

/-- C4 counterexample: a ten-character program, window size 4, and a
program-scope binding spanning offsets 5 to 6.  Neither clamp fires, yet
the extracted context has length 5, not the claimed exact window size 4:
the centered slice `code.slice(start - W/2, end + W/2)` spans the
binding's span plus `W`, not `W`. -/
theorem context_window_length_not_exact :
    code10.length = 10
      ∧ 4 ≤ code10.length
      ∧ (scopeToString code10 4 5 6 true).length = 5
      ∧ ¬(scopeToString code10 4 5 6 true).length = 4 := by
  decide

theorem jsSlice_zero_natCast_length (cs : List Char) (b : Nat) (h : b ≤ cs.length) :
    (jsSlice cs 0 (b : Int)).length = b := by
  unfold jsSlice jsIdx
  rw [if_neg (by omega), if_neg (by omega), List.length_drop, List.length_take]
  omega

theorem jsSlice_neg_length (cs : List Char) (W : Nat) (h0 : 0 < W)
    (h : W ≤ cs.length) :
    (jsSlice cs (-(W : Int)) ((cs.length : Int))).length = W := by
  unfold jsSlice jsIdx
  rw [if_pos (by omega), if_neg (by omega), List.length_drop, List.length_take]
  omega

theorem jsSlice_length_natCast (cs : List Char) (a b : Nat) :
    (jsSlice cs (a : Int) (b : Int)).length = min b cs.length - min a cs.length := by
  unfold jsSlice jsIdx
  rw [if_neg (by omega), if_neg (by omega), List.length_drop, List.length_take]
  omega

/-- C4 (amended): for a program-scope binding in a file of length at least
the window size `W`, the extracted context has length exactly `W` in the
two clamped cases (the span's end within the first half-window, or its
start within the last half-window), but in the centered case the slice
runs from `W/2` before the span's start to `W/2` after its end, so its
length is the span length plus `W` — exactly `W` only for an empty span. -/
theorem scopeToString_window_length (code : List Char) (W s e : Nat)
    (hW0 : 0 < W) (hlen : W ≤ code.length) :
    (2 * e < W → (scopeToString code W s e true).length = W)
      ∧ (W ≤ 2 * e → (2 * s : Int) > 2 * (code.length : Int) - (W : Int) →
          (scopeToString code W s e true).length = W)
      ∧ (2 ∣ W → W ≤ 2 * s → s ≤ e → 2 * e + W ≤ 2 * code.length →
          (scopeToString code W s e true).length = e - s + W) := by
  refine ⟨?_, ?_, ?_⟩
  · intro h1
    unfold scopeToString
    rw [if_neg (by omega), if_pos rfl, if_pos h1]
    exact jsSlice_zero_natCast_length code W hlen
  · intro h1 h2
    unfold scopeToString
    rw [if_neg (by omega), if_pos rfl, if_neg (by omega), if_pos h2]
    exact jsSlice_neg_length code W hW0 hlen
  · intro hdvd hWs hse hele
    obtain ⟨w, rfl⟩ := hdvd
    unfold scopeToString
    rw [if_neg (by omega), if_pos rfl, if_neg (by omega),
      if_neg (by push_cast; omega)]
    have h1 : halfTrunc (2 * (s : Int) - ((2 * w : Nat) : Int)) =
        ((s - w : Nat) : Int) := by
      unfold halfTrunc
      rw [if_pos (by push_cast; omega),
        show 2 * (s : Int) - ((2 * w : Nat) : Int) = 2 * ((s : Int) - (w : Int)) by
          push_cast; ring,
        Int.mul_ediv_cancel_left _ (by norm_num)]
      push_cast
      omega
    have h2 : halfTrunc (2 * (e : Int) + ((2 * w : Nat) : Int)) =
        ((e + w : Nat) : Int) := by
      unfold halfTrunc
      rw [if_pos (by push_cast; omega),
        show 2 * (e : Int) + ((2 * w : Nat) : Int) = 2 * ((e : Int) + (w : Int)) by
          push_cast; ring,
        Int.mul_ediv_cancel_left _ (by norm_num)]
      push_cast
      omega
    rw [h1, h2, jsSlice_length_natCast]
    omega

/-- Witness for C4: the ten-character program with window size 4 and span
4 to 5: the centered case yields a context of length `5 - 4 + 4 = 5`. -/
theorem scopeToString_window_length_witness :
    (2 * 5 < 4 → (scopeToString code10 4 4 5 true).length = 4)
      ∧ (4 ≤ 2 * 5 → (2 * 4 : Int) > 2 * (code10.length : Int) - (4 : Int) →
          (scopeToString code10 4 4 5 true).length = 4)
      ∧ (2 ∣ 4 → 4 ≤ 2 * 4 → 4 ≤ 5 → 2 * 5 + 4 ≤ 2 * code10.length →
          (scopeToString code10 4 4 5 true).length = 5 - 4 + 4) :=
  scopeToString_window_length code10 4 4 5 (by decide) (by decide)

end Humanify
